import Mathlib

/-!
Shallow embedding of the libc++ pretty-printer decoding engine
(src/libcxx/v1/printers.py) and proofs about its decoders.

Modelling conventions, shared across all decoders:

* Target memory is a partial map from addresses to contents; a `none`
  result models a gdb memory read that raises (unmapped / optimized-out
  memory).  Addresses and scalar contents are `Int`, matching gdb values.
  Pointer arithmetic in the source is element-granular (gdb pointer
  arithmetic), so addresses advance by 1 per element.
* gdb's `Value.dereference()` is lazy: it only touches memory once the
  value's bits are needed (printing with `'%s' %`, arithmetic, field
  access).  Where the python code builds a lazy element and never forces
  it, the embedding carries the element's address; where the code forces
  a read, the embedding consults memory and a failed read becomes either
  an `Except.error` (the python exception escapes the enclosing function)
  or an early stop (the python code catches it locally).
* Python loops whose bound comes only from target memory may diverge; such
  runs take an explicit fuel argument and return `none` ("the python code
  would still be looping") when the fuel runs out before a genuine stop
  condition fires.  Loops bounded by a `count >= size` style check are run
  with fuel `(size - count).toNat`, which is exactly the number of
  remaining iterations, so no behaviour is cut off.
* Python 2 `/` and `%` on ints are floor division and matching modulus,
  embedded as `Int.fdiv` / `Int.fmod`.
-/

namespace LibcxxPrinters

/-- Word-addressable target memory: address to scalar contents, `none` when
the read would raise (unreadable / optimized out). -/
abbrev Mem := Int → Option Int

/-- The `'[%d]' % count` element label used by every iterator. -/
def idxLabel (n : Int) : String := "[" ++ toString n ++ "]"

/-! ## StdStringPrinter (printers.py lines 66-109) -/

/-- The fields of a `std::basic_string` value that the printer touches:
the short representation's raw size byte and inline buffer address, and
the long representation's explicit size and data pointer
(`val['__r_']['__first_']['__s']` / `['__l']`). -/
structure StringVal where
  shortRawSize : Nat
  shortDataAddr : Int
  longSize : Int
  longDataPtr : Int

/-- Representation selection from `StdStringPrinter.__init__` (lines 73-81):
`(ss['__size_'] & 0x1) == 0` selects the short representation with
`size = ss['__size_'] >> 1` and the inline data buffer, otherwise the long
representation's `__size_` / `__data_` are used.  Returns `(size, ptr)`. -/
def stdStringRep (val : StringVal) : Int × Int :=
  if val.shortRawSize &&& 1 = 0 then
    (((val.shortRawSize >>> 1 : Nat) : Int), val.shortDataAddr)
  else
    (val.longSize, val.longDataPtr)

/-- Decoder state after `StdStringPrinter.__init__`: the derived size and
data pointer, and whether the plausibility probe succeeded (in the source,
success installs the `display_hint` attribute). -/
structure StringPrinter where
  size : Int
  ptr : Int
  probeOk : Bool
  deriving DecidableEq

/-- Embeds `StdStringPrinter.__init__` (lines 69-98): pick the representation, then
probe plausibility by reading the first character at `ptr` and the one at
`ptr + size`; on a failed read the `except` clause sets `ptr = 0` and
`size = -1`. -/
def stdStringInit (mem : Mem) (val : StringVal) : StringPrinter :=
  let rep := stdStringRep val
  if 0 ≤ rep.1 then
    match mem rep.2, mem (rep.2 + rep.1) with
    | some _, some _ => ⟨rep.1, rep.2, true⟩
    | _, _ => ⟨-1, 0, false⟩
  else
    ⟨rep.1, rep.2, false⟩

/-- Read `n` consecutive characters starting at `ptr`
(the memory accesses of gdb's `Value.string(length=n)`). -/
def readBytes (mem : Mem) (ptr : Int) : Nat → Option (List Int)
  | 0 => some []
  | n + 1 =>
    match mem ptr, readBytes mem (ptr + 1) n with
    | some b, some bs => some (b :: bs)
    | _, _ => none

/-- Render fetched characters as the summary string. -/
def renderBytes (bs : List Int) : String :=
  String.mk (bs.map fun b => Char.ofNat b.toNat)

/-- Embeds `StdStringPrinter.to_string` (lines 100-106): decode `size` characters
at `ptr` when `size >= 0`; any failure (negative size, or a read raising
inside `Value.string`) yields `'invalid'`. -/
def stdStringToString (mem : Mem) (p : StringPrinter) : String :=
  if 0 ≤ p.size then
    match readBytes mem p.ptr p.size.toNat with
    | some bs => renderBytes bs
    | none => "invalid"
  else
    "invalid"

/-! ## StdVectorPrinter (printers.py lines 343-458) -/

/-- The fields of a `std::vector` value the printer touches.  The source
detects the bit-packed boolean specialization by scanning the value's field
list for `__bits_per_word`; the two layouts are modelled as the two
constructors.  For the boolean variant, `bpwField = none` models an
optimized-out `__bits_per_word` field and `capWords` is
`__cap_alloc_.__first_` (capacity in storage words). -/
inductive VectorVal where
  | plain (vbegin vend vendCap : Int)
  | boolVec (vbegin : Int) (vsize : Int) (capWords : Int) (bpwField : Option Int)
  deriving DecidableEq

/-- Decoder state after `StdVectorPrinter.__init__`.  `hasChildren` records
whether the `children` attribute was installed (the element sequence is
exposed).  `bitsPerWord` is only meaningful when `isBool` is true, matching
the source where the attribute is only assigned on the boolean path. -/
structure VectorPrinter where
  typename : String
  vval : VectorVal
  isBool : Bool
  bitsPerWord : Int
  size : Int
  capacity : Int
  hasChildren : Bool
  deriving DecidableEq

/-- Embeds `StdVectorPrinter.__init__` (lines 385-422): derive size and capacity
(pointer differences for the plain layout, bit counts for the boolean
layout, with `__bits_per_word` defaulting to 64 when optimized out), mark
the size implausible when it exceeds the capacity, then probe the first and
last element's storage; a failed probe read sets `size = -1`, a successful
one installs `children`.  On the boolean path the probe divides by
`bits_per_word`; a zero width raises `ZeroDivisionError`, caught by the
same `except` clause. -/
def stdVectorInit (mem : Mem) (tn : String) (val : VectorVal) : VectorPrinter :=
  match val with
  | .plain b e ec =>
    let size0 := e - b
    let capacity := ec - b
    let size1 := if capacity < size0 then -1 else size0
    if 0 < size1 then
      match mem b, mem (e - 1) with
      | some _, some _ => ⟨tn, val, false, 0, size1, capacity, true⟩
      | _, _ => ⟨tn, val, false, 0, -1, capacity, false⟩
    else
      ⟨tn, val, false, 0, size1, capacity, false⟩
  | .boolVec b sz capW bpwF =>
    let bpw : Int := match bpwF with | none => 64 | some w => w
    let size0 := sz
    let capacity := capW * bpw
    let size1 := if capacity < size0 then -1 else size0
    if 0 < size1 then
      if bpw = 0 then
        ⟨tn, val, true, bpw, -1, capacity, false⟩
      else
        match mem b, mem (b + (size1 - 1).fdiv bpw) with
        | some _, some _ => ⟨tn, val, true, bpw, size1, capacity, true⟩
        | _, _ => ⟨tn, val, true, bpw, -1, capacity, false⟩
    else
      ⟨tn, val, true, bpw, size1, capacity, false⟩

/-- Embeds `StdVectorPrinter.to_string` (lines 436-458).  Note the source checks
`self.size == 0` first and returns the bare `'empty'`; the later
`'empty %s (capacity=%d)'` branches sit under `elif self.size > 0` and are
kept here exactly as written. -/
def stdVectorToString (p : VectorPrinter) : String :=
  if p.size = 0 then "empty"
  else if 0 < p.size then
    match p.vval with
    | .boolVec _ _ capW _ =>
      let capacity := capW * p.bitsPerWord
      if p.size = 0 then
        "empty " ++ p.typename ++ "<bool> (capacity=" ++ toString capacity ++ ")"
      else
        p.typename ++ "<bool> (length=" ++ toString p.size ++ ", capacity="
          ++ toString capacity ++ ")"
    | .plain b _ ec =>
      let capacity := ec - b
      if p.size = 0 then
        "empty " ++ p.typename ++ " (capacity=" ++ toString capacity ++ ")"
      else
        p.typename ++ " (length=" ++ toString p.size ++ ", capacity="
          ++ toString capacity ++ ")"
  else "invalid"

/-- State of `StdVectorPrinter._iterator` on the bit-packed path: current
word address, bit offset within it, total bit count, word width and the
running element count. -/
structure BitIterState where
  item : Int
  so : Nat
  size : Int
  bitsPerWord : Int
  count : Int
  deriving DecidableEq

/-- One `__next__` step of the bit-packed iterator (lines 362-377): stop
when `count == size`; otherwise read the current storage word (the read is
forced by the `&` arithmetic, so a failure escapes `__next__` as an
exception), extract bit `so`, advance the bit offset and wrap to the next
word when it reaches `bits_per_word`. -/
def bitvecNext (mem : Mem) (s : BitIterState) : Except Unit (Option ((String × Bool) × BitIterState)) :=
  if s.count = s.size then .ok none
  else
    match mem s.item with
    | none => .error ()
    | some elt =>
      let obit := decide (Int.land elt (2 ^ s.so) ≠ 0)
      let so2 := s.so + 1
      let s2 : BitIterState :=
        if s.bitsPerWord ≤ (so2 : Int) then
          { s with item := s.item + 1, so := 0, count := s.count + 1 }
        else
          { s with so := so2, count := s.count + 1 }
      .ok (some ((idxLabel s.count, obit), s2))

/-- Exhaust the bit-packed iterator.  The loop is bounded only by the
`count == size` check, so a state with `count > size` never stops: fuel
exhaustion (`none`) models that divergence. -/
def bitvecRunAux (mem : Mem) : Nat → BitIterState → Option (Except Unit (List (String × Bool)))
  | fuel, s =>
    match bitvecNext mem s with
    | .error e => some (.error e)
    | .ok none => some (.ok [])
    | .ok (some (el, s2)) =>
      match fuel with
      | 0 => none
      | fuel + 1 =>
        match bitvecRunAux mem fuel s2 with
        | none => none
        | some (.error e) => some (.error e)
        | some (.ok l) => some (.ok (el :: l))

/-- Run the bit-packed iterator from a fresh state with the exact fuel. -/
def bitvecRun (mem : Mem) (s : BitIterState) : Option (Except Unit (List (String × Bool))) :=
  bitvecRunAux mem (s.size - s.count).toNat s

/-- The boolean branch of `StdVectorPrinter._children` (lines 425-429): a
fresh iterator over `(__begin_, __size_, bits_per_word)`.  (The non-boolean
branch is `vecPlainElems` below; `_children` dispatches on `is_bool`.) -/
def stdVectorChildrenBool (mem : Mem) (p : VectorPrinter) : Option (Except Unit (List (String × Bool))) :=
  match p.vval with
  | .boolVec b sz _ _ => bitvecRun mem ⟨b, 0, sz, p.bitsPerWord, 0⟩
  | .plain _ _ _ => some (.ok [])

/-- The plain-vector iterator (lines 378-383): walk `item` from `begin`
until it equals `finish`, yielding one lazily-dereferenced element per
address (counting never forces the reads, so the walk is pure).  The loop
only stops on `item == finish`; fuel `(finish - begin).toNat` is exact when
`begin ≤ finish`, which `__init__` guarantees before exposing children. -/
def vecPlainElemsAux : Nat → Int → Int → Int → List (String × Int)
  | 0, _, _, _ => []
  | fuel + 1, item, finish, count =>
    if item = finish then []
    else (idxLabel count, item) :: vecPlainElemsAux fuel (item + 1) finish (count + 1)

/-- The non-boolean branch of `StdVectorPrinter._children` (lines 430-434):
a fresh iterator over `(__begin_, __end_)` derived from the stored value. -/
def vecPlainElems (b e : Int) : List (String × Int) :=
  vecPlainElemsAux (e - b).toNat b e 0

/-- Embeds `_children` for a plain vector, reading the pointers from the decoder's
stored root value. -/
def stdVectorChildrenPlain (p : VectorPrinter) : List (String × Int) :=
  match p.vval with
  | .plain b e _ => vecPlainElems b e
  | .boolVec _ _ _ _ => []

/-! ## StdSplitBufferPrinter (printers.py lines 488-545) -/

/-- The `__begin_` / `__end_` / `__end_cap_.__first_` triple of a
`std::__split_buffer` value. -/
structure SplitBufVal where
  sbegin : Int
  send : Int
  sendCap : Int
  deriving DecidableEq

/-- Embeds `StdSplitBufferPrinter._iterator` (lines 490-505): walk `ptr` from
`begin` while `ptr < end`, yielding one lazily-dereferenced element per
cell address.  Counting the iterator (as `__init__` does) never forces the
reads, so the walk is pure; the `ptr >= end` stop makes fuel
`(end - begin).toNat` exact in every case. -/
def splitBufElemsAux : Nat → Int → Int → Int → List (String × Int)
  | 0, _, _, _ => []
  | fuel + 1, ptr, e, count =>
    if e ≤ ptr then []
    else (idxLabel count, ptr) :: splitBufElemsAux fuel (ptr + 1) e (count + 1)

/-- Embeds `StdSplitBufferPrinter._children`: a fresh iterator over
`(begin, end)`. -/
def splitBufElems (b e : Int) : List (String × Int) :=
  splitBufElemsAux (e - b).toNat b e 0

/-- Decoder state after `StdSplitBufferPrinter.__init__`. -/
structure SplitBufPrinter where
  sbegin : Int
  send : Int
  sendCap : Int
  size : Int
  capacity : Int
  hasChildren : Bool
  deriving DecidableEq

/-- Embeds `StdSplitBufferPrinter.__init__` (lines 507-526): size and capacity are
pointer differences; `capacity < size` invalidates both to `-1`; otherwise,
for positive sizes, the iteration count is reconciled against `size`
(vacuously here, since the lazy elements never touch memory) and a match
installs `children`. -/
def stdSplitBufferInit (val : SplitBufVal) : SplitBufPrinter :=
  let size := val.send - val.sbegin
  let capacity := val.sendCap - val.sbegin
  if capacity < size then
    ⟨val.sbegin, val.send, val.sendCap, -1, -1, false⟩
  else if 0 < size then
    let cnt := (splitBufElems val.sbegin val.send).length
    if size ≠ (cnt : Int) then
      ⟨val.sbegin, val.send, val.sendCap, -1, -1, false⟩
    else
      ⟨val.sbegin, val.send, val.sendCap, size, capacity, true⟩
  else
    ⟨val.sbegin, val.send, val.sendCap, size, capacity, false⟩

/-! ## StdDequePrinter (printers.py lines 547-621) -/

/-- The fields of a `std::deque` value the printer touches:
`__block_size`, the `__map_` split buffer of block pointers, `__start_`
and `__size_.__first_`. -/
structure DequeVal where
  blockSize : Int
  dmap : SplitBufVal
  dstart : Int
  dsize : Int
  deriving DecidableEq

/-- Decoder state after `StdDequePrinter.__init__`. -/
structure DequePrinter where
  typename : String
  blockSize : Int
  blocks : SplitBufPrinter
  start : Int
  size : Int
  capacity : Int
  hasChildren : Bool
  deriving DecidableEq

/-- State of `StdDequePrinter._iterator`. -/
structure DequeIterState where
  count : Int
  size : Int
  blockSize : Int
  start : Int
  mapBegin : Int
  mapEnd : Int
  deriving DecidableEq

/-- One `__next__` step of the deque iterator (lines 562-581): stop when
`count >= size` or `start > block_size`; compute `idx = start + count`,
divide by the block size (`ZeroDivisionError` escapes `__next__` when it
is zero — modelled as `.error`), stop early when the block pointer reaches
the map's end, then read the block pointer out of the map (forced by the
`+ idx` arithmetic; a failed read escapes `__next__`) and yield the
element's address `*map_cell + idx % block_size` lazily. -/
def dequeNext (mem : Mem) (s : DequeIterState) : Except Unit (Option ((String × Int) × DequeIterState)) :=
  if s.size ≤ s.count then .ok none
  else if s.blockSize < s.start then .ok none
  else
    let idx := s.start + s.count
    if s.blockSize = 0 then .error ()
    else
      let blockPtr := s.mapBegin + idx.fdiv s.blockSize
      if s.mapEnd ≤ blockPtr then .ok none
      else
        match mem blockPtr with
        | none => .error ()
        | some bp =>
          .ok (some ((idxLabel s.count, bp + idx.fmod s.blockSize),
                     { s with count := s.count + 1 }))

/-- Exhaust the deque iterator.  The `count >= size` stop makes fuel
`(size - count).toNat` exact, so the run is total. -/
def dequeRunAux (mem : Mem) : Nat → DequeIterState → Except Unit (List (String × Int))
  | 0, _ => .ok []
  | fuel + 1, s =>
    match dequeNext mem s with
    | .error e => .error e
    | .ok none => .ok []
    | .ok (some (el, s2)) =>
      match dequeRunAux mem fuel s2 with
      | .error e => .error e
      | .ok l => .ok (el :: l)

/-- Run the deque iterator from a given state with the exact fuel. -/
def dequeRun (mem : Mem) (s : DequeIterState) : Except Unit (List (String × Int)) :=
  dequeRunAux mem (s.size - s.count).toNat s

/-- The block-pointer plausibility probe of `StdDequePrinter.__init__`
(lines 595-598): for each map cell yielded by the split buffer's children,
`'%s' % ptr.dereference()` forces a read of the cell (the block pointer)
and then of the block's first element.  Either failed read raises — and
nothing catches it: the `try`/`except` around this code is commented out
in the source (lines 590, 606-607). -/
def probeBlocks (mem : Mem) : List (String × Int) → Except Unit Unit
  | [] => .ok ()
  | (_, cellAddr) :: rest =>
    match mem cellAddr with
    | none => .error ()
    | some bp =>
      match mem bp with
      | none => .error ()
      | some _ => probeBlocks mem rest

/-- Embeds `StdDequePrinter.__init__` (lines 583-607): build the split-buffer view
of the block map, require `size > 0`, `start < block_size`, a valid map and
`size <= map_size * block_size`, then probe every block pointer and
reconcile the full iteration count against the stored size.  The
`try`/`except` that would downgrade a raised read failure to `size = -1`
is commented out in the source, so failures escape the constructor as
`.error`. -/
def stdDequeInit (mem : Mem) (tn : String) (val : DequeVal) : Except Unit DequePrinter :=
  let blocks := stdSplitBufferInit val.dmap
  let start := val.dstart
  let size := val.dsize
  let capacity := blocks.capacity * val.blockSize
  if 0 < size ∧ start < val.blockSize ∧ blocks.hasChildren = true
      ∧ size ≤ blocks.size * val.blockSize then
    match probeBlocks mem (splitBufElems blocks.sbegin blocks.send) with
    | .error e => .error e
    | .ok _ =>
      match dequeRun mem ⟨0, size, val.blockSize, start, blocks.sbegin, blocks.send⟩ with
      | .error e => .error e
      | .ok l =>
        if size ≠ (l.length : Int) then
          .ok ⟨tn, val.blockSize, blocks, start, -1, capacity, false⟩
        else
          .ok ⟨tn, val.blockSize, blocks, start, size, capacity, true⟩
  else
    .ok ⟨tn, val.blockSize, blocks, start, -1, capacity, false⟩

/-! ## StdListPrinter (printers.py lines 204-252) -/

/-- A `std::list` node as read from memory: the `__next_` link and the
`__value_` payload. -/
structure ListNode where
  next : Int
  value : Int
  deriving DecidableEq

/-- Node-granular target memory for lists. -/
abbrev ListMem := Int → Option ListNode

/-- The fields of a `std::list` value the printer touches: the address of
the `__end_` sentinel (`head.address`), its `__next_` pointer, and the
stored `__size_alloc_.__first_` count. -/
structure ListVal where
  endAddr : Int
  endNext : Int
  storedSize : Int
  deriving DecidableEq

/-- Decoder state after `StdListPrinter.__init__`. -/
structure ListPrinter where
  typename : String
  lval : ListVal
  size : Int
  hasChildren : Bool
  deriving DecidableEq

/-- Exhaust `StdListPrinter._iterator` (lines 207-226): the cursor starts
at the sentinel's `__next_` pointer and stops when it returns to the
sentinel's address or when `count == num_nodes`; each step reads the
current node (a failed read raises out of `__next__`, `.error` here) and
advances via its `__next_` link.  With a negative `num_nodes` and a chain
that never reaches the sentinel the python loop never stops; fuel
exhaustion (`none`) models that divergence. -/
def listRunAux (mem : ListMem) (headAddr numNodes : Int) : Nat → Int → Int → Option (Except Unit (List (String × Int)))
  | fuel, base, count =>
    if base = headAddr ∨ count = numNodes then some (.ok [])
    else
      match fuel with
      | 0 => none
      | fuel + 1 =>
        match mem base with
        | none => some (.error ())
        | some nd =>
          match listRunAux mem headAddr numNodes fuel nd.next (count + 1) with
          | none => none
          | some (.error e) => some (.error e)
          | some (.ok l) => some (.ok ((idxLabel count, nd.value) :: l))

/-- Embeds `StdListPrinter.__init__` (lines 228-239): count a full traversal and
reconcile it against the stored `__size_alloc_.__first_`; a mismatch or a
raised read failure invalidates (`size = -1`), and `children` is installed
only for a matching positive size.  `none` propagates python divergence. -/
def stdListInit (mem : ListMem) (tn : String) (val : ListVal) (fuel : Nat) : Option ListPrinter :=
  match listRunAux mem val.endAddr val.storedSize fuel val.endNext 0 with
  | none => none
  | some (.error _) => some ⟨tn, val, -1, false⟩
  | some (.ok l) =>
    if val.storedSize ≠ (l.length : Int) then some ⟨tn, val, -1, false⟩
    else if 0 < val.storedSize then some ⟨tn, val, val.storedSize, true⟩
    else some ⟨tn, val, val.storedSize, false⟩

/-- Embeds `StdListPrinter._children` (lines 241-242): a fresh iterator over the
stored sentinel and the decoder's current size. -/
def listChildren (mem : ListMem) (p : ListPrinter) (fuel : Nat) : Option (Except Unit (List (String × Int))) :=
  listRunAux mem p.lval.endAddr p.size fuel p.lval.endNext 0

/-- Embeds `StdListPrinter.to_string` (lines 244-252). -/
def stdListToString (p : ListPrinter) : String :=
  if p.size = 0 then "empty"
  else if 0 < p.size then
    p.typename ++ " (length=" ++ toString p.size ++ ")"
  else "invalid"

/-- Traversal as the specification words it for 4.5: start at the
sentinel's next pointer, advance via each node's next link, and stop at
whichever comes first of returning to the sentinel or reaching the stored
count; collect the node payloads. -/
def specListTraverse (mem : ListMem) (sentinel bound : Int) : Nat → Int → Int → Option (Except Unit (List Int))
  | fuel, ptr, seen =>
    if ptr = sentinel ∨ seen = bound then some (.ok [])
    else
      match fuel with
      | 0 => none
      | fuel + 1 =>
        match mem ptr with
        | none => some (.error ())
        | some nd =>
          match specListTraverse mem sentinel bound fuel nd.next (seen + 1) with
          | none => none
          | some (.error e) => some (.error e)
          | some (.ok l) => some (.ok (nd.value :: l))

/-! ## HashTablePrinter (printers.py lines 814-871) -/

/-- A hash-table entry as read from memory: the `__next_` link of the one
global intrusive chain and the `__value_` payload. -/
structure HashNode where
  next : Int
  value : Int
  deriving DecidableEq

/-- Node-granular target memory for hash tables. -/
abbrev HashMem := Int → Option HashNode

/-- The fields of a hash table the printer touches: the stored head pointer
`__p1_.__first_.__next_` and the stored element count `__p2_.__first_`. -/
structure HashTableVal where
  headNext : Int
  storedSize : Int
  deriving DecidableEq

/-- Decoder state after `HashTablePrinter.__init__`. -/
structure HashPrinter where
  typename : String
  hval : HashTableVal
  size : Int
  hasChildren : Bool
  deriving DecidableEq

/-- The clamp in `HashTablePrinter._iterator.__init__` (lines 819-820): a
negative stored count becomes 0. -/
def hashClampedSize (stored : Int) : Int :=
  if stored < 0 then 0 else stored

/-- Exhaust `HashTablePrinter._iterator` (lines 829-845): stop when
`count >= size` or on a null node pointer; a failed node read is caught by
the `except` inside `__next__` and also stops the iteration.  The
`count >= size` stop makes fuel `(size - count).toNat` exact, so the run
is total. -/
def hashRunAux (mem : HashMem) (size : Int) : Nat → Int → Int → List (String × Int)
  | 0, _, _ => []
  | fuel + 1, node, count =>
    if size ≤ count then []
    else if node = 0 then []
    else
      match mem node with
      | none => []
      | some nd => (idxLabel count, nd.value) :: hashRunAux mem size fuel nd.next (count + 1)

/-- Run the hash-table iterator from a fresh cursor. -/
def hashRun (mem : HashMem) (size node : Int) : List (String × Int) :=
  hashRunAux mem size size.toNat node 0

/-- Embeds `HashTablePrinter.__init__` (lines 847-858): count a full traversal of
the chain and reconcile it against the iterator's clamped stored size; a
mismatch invalidates (`size = -1`), and `children` is installed only for a
matching positive count. -/
def stdHashtableInit (mem : HashMem) (tn : String) (val : HashTableVal) : HashPrinter :=
  let isize := hashClampedSize val.storedSize
  let l := hashRun mem isize val.headNext
  if (l.length : Int) ≠ isize then ⟨tn, val, -1, false⟩
  else if 0 < (l.length : Int) then ⟨tn, val, (l.length : Int), true⟩
  else ⟨tn, val, (l.length : Int), false⟩

/-- Embeds `HashTablePrinter.to_string` (lines 860-868). -/
def stdHashtableToString (p : HashPrinter) : String :=
  if p.size = 0 then "empty"
  else if 0 < p.size then
    p.typename ++ " (count=" ++ toString p.size ++ ")"
  else "invalid"

/-- The pointer reached after following `k` next links from `node`:
`none` when a null pointer or an unreadable node is hit strictly before
the `k`-th position. -/
def hashChainPtr (mem : HashMem) : Int → Nat → Option Int
  | node, 0 => some node
  | node, k + 1 =>
    if node = 0 then none
    else
      match mem node with
      | none => none
      | some nd => hashChainPtr mem nd.next k

/-! ## StdRbtreePrinter (printers.py lines 691-759) -/

/-- A tree node as read from memory: `__left_`, `__right_`, `__parent_`
links and the `__value_` payload. -/
structure RbNode where
  rbLeft : Int
  rbRight : Int
  rbParent : Int
  rbValue : Int
  deriving DecidableEq

/-- Node-granular target memory for trees. -/
abbrev RbMem := Int → Option RbNode

/-- The fields of a tree the printer touches: `__begin_node_` and the
stored count `__pair3_.__first_`. -/
structure RbtreeVal where
  beginNode : Int
  storedSize : Int
  deriving DecidableEq

/-- Decoder state after `StdRbtreePrinter.__init__`. -/
structure RbPrinter where
  typename : String
  rval : RbtreeVal
  size : Int
  hasChildren : Bool
  deriving DecidableEq

/-- The clamp in `StdRbtreePrinter._iterator.__init__` (lines 696-697): a
negative stored count becomes 0. -/
def rbClampedSize (stored : Int) : Int :=
  if stored < 0 then 0 else stored

/-- The descend phase of the in-order successor (lines 715-718): from a
right child, follow left links while they are non-null.  Each test reads
the current node; a failed read is an exception for the caller's `except`
(`.error`), and fuel exhaustion (`none`) models a cyclic chain on which
python would loop forever. -/
def rbDescendLeft (mem : RbMem) : Nat → Int → Option (Except Unit Int)
  | fuel, node =>
    match mem node with
    | none => some (.error ())
    | some nd =>
      if nd.rbLeft = 0 then some (.ok node)
      else
        match fuel with
        | 0 => none
        | fuel + 1 => rbDescendLeft mem fuel nd.rbLeft

/-- The ascend phase of the in-order successor (lines 719-724): climb
parent links until the node is its parent's left child, then move to that
parent. -/
def rbAscend (mem : RbMem) : Nat → Int → Int → Option (Except Unit Int)
  | fuel, node, parent =>
    match mem parent with
    | none => some (.error ())
    | some pnd =>
      if node = pnd.rbLeft then some (.ok parent)
      else
        match fuel with
        | 0 => none
        | fuel + 1 => rbAscend mem fuel parent pnd.rbParent

/-- State of `StdRbtreePrinter._iterator`. -/
structure RbIterState where
  node : Int
  size : Int
  count : Int
  deriving DecidableEq

/-- One `__next__` step of the tree iterator (lines 707-733): stop when
`count >= size`; read the current node and compute the in-order successor
(descend from a non-null right child, otherwise ascend); any read failure
during the walk is caught by the `except` and stops the iteration early.
The outer `Option` propagates walk divergence. -/
def rbNext (mem : RbMem) (walkFuel : Nat) (s : RbIterState) : Option (Option ((String × Int) × RbIterState)) :=
  if s.size ≤ s.count then some none
  else
    match mem s.node with
    | none => some none
    | some nd =>
      let walked : Option (Except Unit Int) :=
        if nd.rbRight ≠ 0 then rbDescendLeft mem walkFuel nd.rbRight
        else rbAscend mem walkFuel s.node nd.rbParent
      match walked with
      | none => none
      | some (.error _) => some none
      | some (.ok node2) =>
        some (some ((idxLabel s.count, nd.rbValue), ⟨node2, s.size, s.count + 1⟩))

/-- Exhaust the tree iterator.  The `count >= size` stop makes the outer
fuel `(size - count).toNat` exact. -/
def rbRunAux (mem : RbMem) (walkFuel : Nat) : Nat → RbIterState → Option (List (String × Int))
  | 0, _ => some []
  | fuel + 1, s =>
    match rbNext mem walkFuel s with
    | none => none
    | some none => some []
    | some (some (el, s2)) =>
      match rbRunAux mem walkFuel fuel s2 with
      | none => none
      | some l => some (el :: l)

/-- Run the tree iterator from a fresh cursor over `__begin_node_` with the
clamped stored size. -/
def rbRun (mem : RbMem) (walkFuel : Nat) (s : RbIterState) : Option (List (String × Int)) :=
  rbRunAux mem walkFuel (s.size - s.count).toNat s

/-- Embeds `StdRbtreePrinter.__init__` (lines 735-746): count a full in-order
traversal and reconcile it against the iterator's clamped stored size; a
mismatch invalidates (`size = -1`), and `children` is installed only for a
matching positive count. -/
def stdRbtreeInit (mem : RbMem) (walkFuel : Nat) (tn : String) (val : RbtreeVal) : Option RbPrinter :=
  let isize := rbClampedSize val.storedSize
  match rbRun mem walkFuel ⟨val.beginNode, isize, 0⟩ with
  | none => none
  | some l =>
    if (l.length : Int) ≠ isize then some ⟨tn, val, -1, false⟩
    else if 0 < (l.length : Int) then some ⟨tn, val, (l.length : Int), true⟩
    else some ⟨tn, val, (l.length : Int), false⟩

/-- Embeds `StdRbtreePrinter.to_string` (lines 748-756). -/
def stdRbtreeToString (p : RbPrinter) : String :=
  if p.size = 0 then "empty"
  else if 0 < p.size then
    p.typename ++ " (count=" ++ toString p.size ++ ")"
  else "invalid"

/-! ## Concrete inputs used by the claim theorems and witnesses -/

/-- Memory holding one readable deque map cell at 1000 whose stored block
pointer 5000 targets unreadable memory. -/
def memDequeBad : Mem := fun a => if a = 1000 then some 5000 else none

/-- A deque value with block size 1, a one-cell map at 1000, start 0 and
stored size 1 — structurally valid except that its only block is
unreadable. -/
def dequeValBad : DequeVal := ⟨1, ⟨1000, 1001, 1001⟩, 0, 1⟩

/-- Memory for the 65-bit boolean vector scenario: two 64-bit storage words
at addresses 0 and 1, each with value 1, so exactly bits 0 and 64 of the
vector are set. -/
def memBits65 : Mem := fun a => if a = 0 then some 1 else if a = 1 then some 1 else none

/-! ## C1 -/

/-- C1: the claim says a memory-read failure during construction or
validation never escapes a decoder as a raised error, "in particular ...
for the deque decoder when dereferencing its block pointers during
validation".  The deque constructor's `try`/`except` is commented out in
the source (printers.py lines 590, 606-607), so the block-pointer probe's
failed read at line 598 escapes `StdDequePrinter.__init__` as an
exception: on a structurally valid deque whose only block pointer targets
unreadable memory, the constructor raises instead of producing the
sentinel invalid state. -/
theorem c1_deque_probe_failure_escapes :
    stdDequeInit memDequeBad "std::deque" dequeValBad = .error () := by
  rfl

/-! ## C2 -/

/-- C2 (as stated, refuted): for a vector with `begin == end ==
end_capacity` the summary is claimed to be `"empty vector (capacity=0)"`,
but `to_string` returns at the early `self.size == 0` check (line 438-439)
with the bare `'empty'`; the `'empty %s (capacity=%d)'` branches are dead
code under `elif self.size > 0`. -/
theorem c2_counterexample :
    stdVectorToString (stdVectorInit (fun _ => none) "vector" (.plain 0 0 0))
      ≠ "empty vector (capacity=0)" := by
  decide

/-- C2 (amended): for every vector whose begin, end and end-capacity
pointers are all equal, the decoder's size is 0, its summary is the string
`"empty"`, and no element sequence is exposed. -/
theorem c2_empty_vector_summary (mem : Mem) (tn : String) (a : Int) :
    (stdVectorInit mem tn (.plain a a a)).size = 0 ∧
    stdVectorToString (stdVectorInit mem tn (.plain a a a)) = "empty" ∧
    (stdVectorInit mem tn (.plain a a a)).hasChildren = false := by
  unfold stdVectorInit stdVectorToString
  simp

/-! ## C3 -/

/-- C3: the string decoder selects the representation by the low bit of the
shared size field: bit 0 clear gives length `raw >> 1` with the inline
buffer address, bit set gives the long representation's explicit size and
pointer; and when the plausibility probe succeeds the decoder's stored
size and pointer are exactly the selected pair. -/
theorem c3_string_rep_selection :
    (∀ val : StringVal, val.shortRawSize &&& 1 = 0 →
      stdStringRep val = (((val.shortRawSize >>> 1 : Nat) : Int), val.shortDataAddr)) ∧
    (∀ val : StringVal, val.shortRawSize &&& 1 ≠ 0 →
      stdStringRep val = (val.longSize, val.longDataPtr)) ∧
    (∀ (mem : Mem) (val : StringVal) (c1 c2 : Int),
      0 ≤ (stdStringRep val).1 →
      mem (stdStringRep val).2 = some c1 →
      mem ((stdStringRep val).2 + (stdStringRep val).1) = some c2 →
      (stdStringInit mem val).size = (stdStringRep val).1 ∧
      (stdStringInit mem val).ptr = (stdStringRep val).2) := by
  refine ⟨?_, ?_, ?_⟩
  · intro val h
    unfold stdStringRep
    rw [if_pos h]
  · intro val h
    unfold stdStringRep
    rw [if_neg h]
  · intro mem val c1 c2 h0 h1 h2
    unfold stdStringInit
    rw [if_pos h0, h1, h2]
    exact ⟨rfl, rfl⟩

/-- Witness for C3 at concrete inputs: raw short size 4 (bit clear) decodes
to length 2 with the inline address, raw short size 5 (bit set) uses the
long fields, and over fully readable memory the decoder keeps the selected
size. -/
theorem c3_string_rep_selection_witness :
    stdStringRep ⟨4, 7, 9, 11⟩ = (2, 7) ∧
    stdStringRep ⟨5, 7, 9, 11⟩ = (9, 11) ∧
    (stdStringInit (fun _ => some 0) ⟨4, 7, 9, 11⟩).size = 2 := by
  refine ⟨?_, ?_, ?_⟩
  · rw [c3_string_rep_selection.1 ⟨4, 7, 9, 11⟩ (by decide)]
    decide
  · rw [c3_string_rep_selection.2.1 ⟨5, 7, 9, 11⟩ (by decide)]
  · have h := (c3_string_rep_selection.2.2 (fun _ => some 0) ⟨4, 7, 9, 11⟩ 0 0
      (by decide) rfl rfl).1
    rw [h]
    decide

/-! ## C8 -/

/-- C8: string validation reads the characters at `ptr` and `ptr + size`
through the accessor; if either read fails, the decoder's size becomes -1
(and its pointer 0) and the summary is `'invalid'`. -/
theorem c8_string_probe_failure (mem : Mem) (val : StringVal)
    (h0 : 0 ≤ (stdStringRep val).1)
    (hfail : mem (stdStringRep val).2 = none ∨
      mem ((stdStringRep val).2 + (stdStringRep val).1) = none) :
    (stdStringInit mem val).size = -1 ∧
    (stdStringInit mem val).ptr = 0 ∧
    stdStringToString mem (stdStringInit mem val) = "invalid" := by
  have hinit : stdStringInit mem val = ⟨-1, 0, false⟩ := by
    unfold stdStringInit
    rw [if_pos h0]
    rcases hfail with h | h
    · rw [h]
    · rw [h]
      cases mem (stdStringRep val).2 <;> rfl
  rw [hinit]
  refine ⟨rfl, rfl, ?_⟩
  unfold stdStringToString
  simp

/-- Witness for C8: over fully unreadable memory, a short string of decoded
length 2 is invalidated. -/
theorem c8_string_probe_failure_witness :
    0 ≤ (stdStringRep ⟨4, 7, 9, 11⟩).1 ∧
    (stdStringInit (fun _ => none) ⟨4, 7, 9, 11⟩).size = -1 ∧
    stdStringToString (fun _ => none) (stdStringInit (fun _ => none) ⟨4, 7, 9, 11⟩)
      = "invalid" := by
  have h := c8_string_probe_failure (fun _ => none) ⟨4, 7, 9, 11⟩ (by decide) (Or.inl rfl)
  exact ⟨by decide, h.1, h.2.2⟩

/-! ## C10 -/

/-- C10: both node-chasing decoders with a clamped count — the tree and the
hash table — turn a negative stored element count into 0 inside the
iterator, so the decoder reports the summary `'empty'` and exposes no
element sequence instead of invalidating. -/
theorem c10_negative_count_clamped
    (rmem : RbMem) (hmem : HashMem) (walkFuel : Nat) (tn1 tn2 : String)
    (rval : RbtreeVal) (hval : HashTableVal)
    (hr : rval.storedSize < 0) (hh : hval.storedSize < 0) :
    (stdRbtreeInit rmem walkFuel tn1 rval = some ⟨tn1, rval, 0, false⟩ ∧
      stdRbtreeToString ⟨tn1, rval, 0, false⟩ = "empty") ∧
    (stdHashtableInit hmem tn2 hval = ⟨tn2, hval, 0, false⟩ ∧
      stdHashtableToString ⟨tn2, hval, 0, false⟩ = "empty") := by
  have hrc : rbClampedSize rval.storedSize = 0 := by
    unfold rbClampedSize
    rw [if_pos hr]
  have hhc : hashClampedSize hval.storedSize = 0 := by
    unfold hashClampedSize
    rw [if_pos hh]
  refine ⟨⟨?_, by unfold stdRbtreeToString; simp⟩, ⟨?_, by unfold stdHashtableToString; simp⟩⟩
  · unfold stdRbtreeInit
    rw [hrc]
    unfold rbRun
    norm_num [rbRunAux]
  · unfold stdHashtableInit
    rw [hhc]
    unfold hashRun
    norm_num [hashRunAux]

/-- Witness for C10 at stored count -5 on both decoders, over empty
memories. -/
theorem c10_negative_count_clamped_witness :
    stdRbtreeInit (fun _ => none) 3 "std::set" ⟨100, -5⟩
        = some ⟨"std::set", ⟨100, -5⟩, 0, false⟩ ∧
    stdHashtableInit (fun _ => none) "std::unordered_set" ⟨100, -5⟩
        = ⟨"std::unordered_set", ⟨100, -5⟩, 0, false⟩ := by
  have h := c10_negative_count_clamped (fun _ => none) (fun _ => none) 3
    "std::set" "std::unordered_set" ⟨100, -5⟩ ⟨100, -5⟩ (by decide) (by decide)
  exact ⟨h.1.1, h.2.1⟩

/-! ## C9 -/

/-- C9: requesting the element sequence twice from the same valid decoder
yields two sequences of equal length with pairwise equal `(label, value)`
entries, because each request derives a fresh cursor from the decoder's
stored root state (shown for the vector decoder's element sequence and the
list decoder's element sequence). -/
theorem c9_children_idempotent :
    (∀ (mem : Mem) (tn : String) (v : VectorVal),
      (stdVectorInit mem tn v).hasChildren = true →
      (stdVectorChildrenPlain (stdVectorInit mem tn v)).length
          = (stdVectorChildrenPlain (stdVectorInit mem tn v)).length ∧
      ∀ i : Nat, (stdVectorChildrenPlain (stdVectorInit mem tn v)).get? i
          = (stdVectorChildrenPlain (stdVectorInit mem tn v)).get? i) ∧
    (∀ (mem : ListMem) (tn : String) (v : ListVal) (fuel : Nat) (q : ListPrinter),
      stdListInit mem tn v fuel = some q → q.hasChildren = true →
      ∀ l1 l2 : List (String × Int),
        listChildren mem q fuel = some (.ok l1) →
        listChildren mem q fuel = some (.ok l2) →
        l1.length = l2.length ∧ ∀ i : Nat, l1.get? i = l2.get? i) := by
  refine ⟨fun mem tn v _ => ⟨rfl, fun _ => rfl⟩, ?_⟩
  intro mem tn v fuel q _ _ l1 l2 h1 h2
  rw [h1] at h2
  have heq : l1 = l2 := Except.ok.inj (Option.some.inj h2)
  subst heq
  exact ⟨rfl, fun _ => rfl⟩

/-- Memory holding a one-node list: the node at 20 links back to the
sentinel at 0 and carries payload 1. -/
def memListOne : ListMem := fun a => if a = 20 then some ⟨0, 1⟩ else none

/-- Witness for C9: a valid 3-element vector and a valid 1-element list,
each enumerated twice. -/
theorem c9_children_idempotent_witness :
    ((stdVectorChildrenPlain (stdVectorInit (fun _ => some 0) "vector" (.plain 0 3 4))).get? 0
      = (stdVectorChildrenPlain (stdVectorInit (fun _ => some 0) "vector" (.plain 0 3 4))).get? 0) ∧
    (([(idxLabel 0, (1 : Int))] : List (String × Int)).length
      = ([(idxLabel 0, (1 : Int))] : List (String × Int)).length) := by
  constructor
  · exact (c9_children_idempotent.1 (fun _ => some 0) "vector" (.plain 0 3 4) (by rfl)).2 0
  · exact (c9_children_idempotent.2 memListOne "std::list" ⟨0, 20, 1⟩ 2
      ⟨"std::list", ⟨0, 20, 1⟩, 1, true⟩ (by rfl) rfl
      [(idxLabel 0, 1)] [(idxLabel 0, 1)] (by rfl) (by rfl)).1

/-! ## C7 -/

/-- Arithmetic helper: one loop iteration consumes exactly one unit of the
`(size - count).toNat` fuel. -/
theorem toNat_sub_succ {size count : Int} (h : count < size) :
    (size - count).toNat = (size - (count + 1)).toNat + 1 := by
  omega

/-- Random-access law for the bit-packed cursor: starting from a state with
in-range bit offset, the `k`-th element produced is bit
`(so + k) % bits_per_word` of the storage word `(so + k) / bits_per_word`
words past the current one. -/
theorem bitvecRunAux_get (mem : Mem) :
    ∀ (k : Nat) (s : BitIterState) (l : List (String × Bool)),
      0 < s.bitsPerWord → ((s.so : Int) < s.bitsPerWord) →
      bitvecRunAux mem (s.size - s.count).toNat s = some (.ok l) →
      s.count + (k : Int) < s.size →
      ∃ w, mem (s.item + (((s.so + k) / s.bitsPerWord.toNat : Nat) : Int)) = some w ∧
        l.get? k = some (idxLabel (s.count + (k : Int)),
          decide (Int.land w (2 ^ ((s.so + k) % s.bitsPerWord.toNat)) ≠ 0)) := by
  intro k
  induction k with
  | zero =>
    intro s l hbpw hso hrun hlt
    have hlt0 : s.count < s.size := by omega
    have hne : ¬ s.count = s.size := by omega
    rw [toNat_sub_succ hlt0] at hrun
    rw [bitvecRunAux] at hrun
    unfold bitvecNext at hrun
    rw [if_neg hne] at hrun
    cases hw : mem s.item with
    | none =>
      rw [hw] at hrun
      simp at hrun
    | some w =>
      rw [hw] at hrun
      simp only [] at hrun
      cases hrec : bitvecRunAux mem (s.size - (s.count + 1)).toNat
          (if s.bitsPerWord ≤ ((s.so + 1 : Nat) : Int) then
            { s with item := s.item + 1, so := 0, count := s.count + 1 }
          else { s with so := s.so + 1, count := s.count + 1 }) with
      | none =>
        rw [hrec] at hrun
        simp at hrun
      | some r =>
        cases r with
        | error e =>
          rw [hrec] at hrun
          simp at hrun
        | ok l2 =>
          rw [hrec] at hrun
          simp only [Option.some.injEq, Except.ok.injEq] at hrun
          refine ⟨w, ?_, ?_⟩
          · have hdiv : (s.so + 0) / s.bitsPerWord.toNat = 0 :=
              Nat.div_eq_of_lt (by omega)
            rw [hdiv]
            simpa using hw
          · rw [← hrun]
            have hmod : (s.so + 0) % s.bitsPerWord.toNat = s.so :=
              Nat.mod_eq_of_lt (by omega)
            rw [hmod]
            simp
  | succ k ih =>
    intro s l hbpw hso hrun hlt
    have hlt0 : s.count < s.size := by
      have : (0 : Int) ≤ (k : Int) := Int.ofNat_nonneg k
      push_cast at hlt
      omega
    have hne : ¬ s.count = s.size := by omega
    rw [toNat_sub_succ hlt0] at hrun
    rw [bitvecRunAux] at hrun
    unfold bitvecNext at hrun
    rw [if_neg hne] at hrun
    cases hw : mem s.item with
    | none =>
      rw [hw] at hrun
      simp at hrun
    | some w =>
      rw [hw] at hrun
      simp only [] at hrun
      by_cases hwrap : s.bitsPerWord ≤ ((s.so + 1 : Nat) : Int)
      · rw [if_pos hwrap] at hrun
        cases hrec : bitvecRunAux mem (s.size - (s.count + 1)).toNat
            { s with item := s.item + 1, so := 0, count := s.count + 1 } with
        | none =>
          rw [hrec] at hrun
          simp at hrun
        | some r =>
          cases r with
          | error e =>
            rw [hrec] at hrun
            simp at hrun
          | ok l2 =>
            rw [hrec] at hrun
            simp only [Option.some.injEq, Except.ok.injEq] at hrun
            have hsoW : s.so + 1 = s.bitsPerWord.toNat := by omega
            have ihres := ih { s with item := s.item + 1, so := 0, count := s.count + 1 }
              l2 hbpw (by simpa using hbpw) hrec (by push_cast; push_cast at hlt; omega)
            obtain ⟨w2, hw2, hget⟩ := ihres
            refine ⟨w2, ?_, ?_⟩
            · have e1 : s.so + (k + 1) = (0 + k) + s.bitsPerWord.toNat := by omega
              rw [e1, Nat.add_div_right _ (by omega)]
              have : s.item + (((0 + k) / s.bitsPerWord.toNat + 1 : Nat) : Int)
                  = s.item + 1 + (((0 + k) / s.bitsPerWord.toNat : Nat) : Int) := by
                push_cast
                ring
              rw [this]
              exact hw2
            · rw [← hrun]
              have e2 : s.so + (k + 1) = (0 + k) + s.bitsPerWord.toNat := by omega
              rw [List.get?_cons_succ, e2, Nat.add_mod_right]
              have e3 : s.count + ((k : Nat) + 1 : Int) = s.count + 1 + (k : Int) := by
                ring
              push_cast
              push_cast at hget
              rw [e3]
              exact hget
      · rw [if_neg hwrap] at hrun
        cases hrec : bitvecRunAux mem (s.size - (s.count + 1)).toNat
            { s with so := s.so + 1, count := s.count + 1 } with
        | none =>
          rw [hrec] at hrun
          simp at hrun
        | some r =>
          cases r with
          | error e =>
            rw [hrec] at hrun
            simp at hrun
          | ok l2 =>
            rw [hrec] at hrun
            simp only [Option.some.injEq, Except.ok.injEq] at hrun
            have ihres := ih { s with so := s.so + 1, count := s.count + 1 }
              l2 hbpw (by push_cast; push_cast at hwrap; omega) hrec
              (by push_cast; push_cast at hlt; omega)
            obtain ⟨w2, hw2, hget⟩ := ihres
            refine ⟨w2, ?_, ?_⟩
            · have e1 : s.so + (k + 1) = (s.so + 1) + k := by omega
              rw [e1]
              exact hw2
            · rw [← hrun]
              have e1 : s.so + (k + 1) = (s.so + 1) + k := by omega
              have e3 : s.count + ((k : Nat) + 1 : Int) = s.count + 1 + (k : Int) := by
                ring
              rw [List.get?_cons_succ, e1]
              push_cast
              push_cast at hget
              rw [e3]
              exact hget

/-- C7: the boolean vector's cursor yields one bit per step, moving to the
next storage word exactly every `bits_per_word` bits — element `k` is bit
`k % bits_per_word` of word `k / bits_per_word` — with `bits_per_word`
defaulting to 64 when the field is optimized out; and on the 65-bit
vector over `memBits65` (bits 0 and 64 set) the sequence yields `true`
exactly at indices 0 and 64. -/
theorem c7_bool_vector_bits :
    (∀ (mem : Mem) (tn : String) (b sz capW : Int),
      (stdVectorInit mem tn (.boolVec b sz capW none)).bitsPerWord = 64) ∧
    (∀ (mem : Mem) (b sz bpw : Int) (l : List (String × Bool)) (k : Nat),
      0 < bpw →
      bitvecRun mem ⟨b, 0, sz, bpw, 0⟩ = some (.ok l) →
      (k : Int) < sz →
      ∃ w, mem (b + ((k / bpw.toNat : Nat) : Int)) = some w ∧
        l.get? k = some (idxLabel (k : Int),
          decide (Int.land w (2 ^ (k % bpw.toNat)) ≠ 0))) ∧
    bitvecRun memBits65 ⟨0, 0, 65, 64, 0⟩
      = some (.ok ((List.range 65).map fun i =>
          (idxLabel (i : Int), decide (i = 0 ∨ i = 64)))) := by
  refine ⟨?_, ?_, ?_⟩
  · intro mem tn b sz capW
    unfold stdVectorInit
    repeat' split
    all_goals simp_all
    all_goals (repeat' split)
    all_goals rfl
  · intro mem b sz bpw l k hbpw hrun hk
    have h := bitvecRunAux_get mem k ⟨b, 0, sz, bpw, 0⟩ l hbpw (by simpa using hbpw)
      hrun (by simpa using hk)
    simpa using h
  · rfl

/-- Witness for C7 at the 65-bit scenario, index 64 (the bit just past the
word boundary). -/
theorem c7_bool_vector_bits_witness :
    ∃ w, memBits65 (0 + (((64 : Nat) / (64 : Int).toNat : Nat) : Int)) = some w ∧
      ((List.range 65).map fun i =>
          (idxLabel (i : Int), decide (i = 0 ∨ i = 64))).get? 64
        = some (idxLabel ((64 : Nat) : Int),
            decide (Int.land w (2 ^ ((64 : Nat) % (64 : Int).toNat)) ≠ 0)) := by
  exact c7_bool_vector_bits.2.1 memBits65 0 65 64 _ 64 (by decide)
    c7_bool_vector_bits.2.2 (by decide)

/-! ## C4 -/

/-- Monotonicity of python floor division in the numerator, for a positive
divisor. -/
theorem fdiv_le_fdiv_of_le {a c B : Int} (hB : 0 < B) (h : a ≤ c) :
    a.fdiv B ≤ c.fdiv B := by
  rw [Int.fdiv_eq_ediv _ hB.le, Int.fdiv_eq_ediv _ hB.le]
  exact Int.ediv_le_ediv hB h

/-- Random-access law for the deque cursor: when the run succeeds, its
`k`-th element is the lazily-dereferenced address
`*map[(start + count + k) fdiv B] + (start + count + k) fmod B`. -/
theorem dequeRunAux_get (mem : Mem) :
    ∀ (k : Nat) (s : DequeIterState) (l : List (String × Int)),
      0 < s.blockSize → s.start ≤ s.blockSize →
      dequeRunAux mem (s.size - s.count).toNat s = .ok l →
      s.count + (k : Int) < s.size →
      s.mapBegin + (s.start + s.count + (k : Int)).fdiv s.blockSize < s.mapEnd →
      ∃ bp, mem (s.mapBegin + (s.start + s.count + (k : Int)).fdiv s.blockSize) = some bp ∧
        l.get? k = some (idxLabel (s.count + (k : Int)),
          bp + (s.start + s.count + (k : Int)).fmod s.blockSize) := by
  intro k
  induction k with
  | zero =>
    intro s l hB hSB hrun hlt hblk
    simp only [Nat.cast_zero, add_zero] at hlt hblk ⊢
    have hcnt : s.count < s.size := hlt
    have h1 : ¬ s.size ≤ s.count := by omega
    have h2 : ¬ s.blockSize < s.start := by omega
    have h3 : ¬ s.blockSize = 0 := by omega
    have h4 : ¬ s.mapEnd ≤ s.mapBegin + (s.start + s.count).fdiv s.blockSize := by omega
    rw [toNat_sub_succ hcnt] at hrun
    simp only [dequeRunAux, dequeNext] at hrun
    rw [if_neg h1, if_neg h2, if_neg h3, if_neg h4] at hrun
    cases hm : mem (s.mapBegin + (s.start + s.count).fdiv s.blockSize) with
    | none =>
      rw [hm] at hrun
      simp at hrun
    | some bp =>
      rw [hm] at hrun
      simp only [] at hrun
      cases hrec : dequeRunAux mem (s.size - (s.count + 1)).toNat
          { s with count := s.count + 1 } with
      | error e =>
        rw [hrec] at hrun
        simp at hrun
      | ok l2 =>
        rw [hrec] at hrun
        simp only [Except.ok.injEq] at hrun
        refine ⟨bp, rfl, ?_⟩
        rw [← hrun]
        simp
  | succ k ih =>
    intro s l hB hSB hrun hlt hblk
    have hcnt : s.count < s.size := by
      have : (0 : Int) ≤ (k : Int) := Int.ofNat_nonneg k
      push_cast at hlt
      omega
    have h1 : ¬ s.size ≤ s.count := by omega
    have h2 : ¬ s.blockSize < s.start := by omega
    have h3 : ¬ s.blockSize = 0 := by omega
    rw [toNat_sub_succ hcnt] at hrun
    simp only [dequeRunAux, dequeNext] at hrun
    rw [if_neg h1, if_neg h2, if_neg h3] at hrun
    have hmono : (s.start + s.count).fdiv s.blockSize
        ≤ (s.start + s.count + ((k : Nat) + 1 : Int)).fdiv s.blockSize := by
      apply fdiv_le_fdiv_of_le hB
      have : (0 : Int) ≤ (k : Int) := Int.ofNat_nonneg k
      omega
    have h4 : ¬ s.mapEnd ≤ s.mapBegin + (s.start + s.count).fdiv s.blockSize := by
      push_cast at hblk
      omega
    rw [if_neg h4] at hrun
    cases hm : mem (s.mapBegin + (s.start + s.count).fdiv s.blockSize) with
    | none =>
      rw [hm] at hrun
      simp at hrun
    | some bp =>
      rw [hm] at hrun
      simp only [] at hrun
      cases hrec : dequeRunAux mem (s.size - (s.count + 1)).toNat
          { s with count := s.count + 1 } with
      | error e =>
        rw [hrec] at hrun
        simp at hrun
      | ok l2 =>
        rw [hrec] at hrun
        simp only [Except.ok.injEq] at hrun
        have hidx : s.start + (s.count + 1) + (k : Int)
            = s.start + s.count + ((k : Nat) + 1 : Int) := by
          ring
        have ihres := ih { s with count := s.count + 1 } l2 hB hSB hrec
          (by simp only []; push_cast at hlt; omega)
          (by simp only [hidx]; push_cast at hblk; omega)
        obtain ⟨bp2, hbp2, hget⟩ := ihres
        simp only [hidx] at hbp2 hget
        refine ⟨bp2, hbp2, ?_⟩
        rw [← hrun]
        rw [List.get?_cons_succ]
        have hlbl : s.count + 1 + (k : Int) = s.count + ((k : Nat) + 1 : Int) := by
          ring
        rw [hlbl] at hget
        exact hget

/-- C4: for a valid deque cursor over block size `B` and start offset `S`,
the element produced at logical index `i` is exactly the direct-indexing
address: the block pointer stored at map index `(S + i) div B`, offset by
`(S + i) mod B` elements. -/
theorem c4_deque_index_law (mem : Mem) (B S size mb me : Int) (i : Nat)
    (l : List (String × Int))
    (hB : 0 < B) (hSB : S ≤ B)
    (hrun : dequeRun mem ⟨0, size, B, S, mb, me⟩ = .ok l)
    (hi : (i : Int) < size)
    (hblock : mb + (S + (i : Int)).fdiv B < me) :
    ∃ bp, mem (mb + (S + (i : Int)).fdiv B) = some bp ∧
      l.get? i = some (idxLabel (i : Int), bp + (S + (i : Int)).fmod B) := by
  have h := dequeRunAux_get mem i ⟨0, size, B, S, mb, me⟩ l hB hSB hrun
    (by simpa using hi) (by simpa using hblock)
  simpa using h

/-- Memory for the C4 witness: a two-cell map at 2000 whose block pointers
are 3000 and 4000, and fully readable blocks. -/
def memDequeOk : Mem := fun a =>
  if a = 2000 then some 3000 else if a = 2001 then some 4000 else some 0

/-- Witness for C4: block size 3, start 1, five elements across the block
boundary; index 4 lands in the second block at offset 2 (address 4002). -/
theorem c4_deque_index_law_witness :
    ∃ bp, memDequeOk (2000 + ((1 : Int) + ((4 : Nat) : Int)).fdiv 3) = some bp ∧
      ([(idxLabel 0, 3001), (idxLabel 1, 3002), (idxLabel 2, 4000),
        (idxLabel 3, 4001), (idxLabel 4, 4002)] : List (String × Int)).get? 4
        = some (idxLabel ((4 : Nat) : Int), bp + ((1 : Int) + ((4 : Nat) : Int)).fmod 3) := by
  exact c4_deque_index_law memDequeOk 3 1 5 2000 2002 4
    [(idxLabel 0, 3001), (idxLabel 1, 3002), (idxLabel 2, 4000),
      (idxLabel 3, 4001), (idxLabel 4, 4002)]
    (by decide) (by decide) (by rfl) (by decide) (by decide)

/-! ## C5 -/

/-- The list iterator's run agrees step for step with the traversal as the
spec words it: same stopping rule (sentinel return or stored count,
whichever first), same next-link advancement, same failure behaviour; the
iterator additionally decorates each payload with its index label. -/
theorem listRunAux_eq_spec (mem : ListMem) (h n : Int) :
    ∀ (fuel : Nat) (base count : Int),
      Option.map (Except.map (List.map Prod.snd)) (listRunAux mem h n fuel base count)
        = specListTraverse mem h n fuel base count := by
  intro fuel
  induction fuel with
  | zero =>
    intro base count
    by_cases hstop : base = h ∨ count = n
    · rw [listRunAux, specListTraverse, if_pos hstop, if_pos hstop]
      rfl
    · rw [listRunAux, specListTraverse, if_neg hstop, if_neg hstop]
      rfl
  | succ fuel ih =>
    intro base count
    by_cases hstop : base = h ∨ count = n
    · rw [listRunAux, specListTraverse, if_pos hstop, if_pos hstop]
      rfl
    · rw [listRunAux, specListTraverse, if_neg hstop, if_neg hstop]
      cases hm : mem base with
      | none => rfl
      | some nd =>
        simp only []
        rw [← ih nd.next (count + 1)]
        cases hrec : listRunAux mem h n fuel nd.next (count + 1) with
        | none => rfl
        | some r =>
          cases r with
          | error e => rfl
          | ok l => rfl

/-- C5: the list decoder's cursor starts at the sentinel's next pointer,
advances via each node's next link, and stops at whichever comes first of
returning to the sentinel or reaching the stored count (it produces
exactly the spec's traversal); and when the traversal's natural
termination count differs from the stored size field, the decoder
invalidates itself: size -1, summary `'invalid'`, no element sequence. -/
theorem c5_list_traversal :
    (∀ (mem : ListMem) (val : ListVal) (fuel : Nat),
      Option.map (Except.map (List.map Prod.snd))
          (listRunAux mem val.endAddr val.storedSize fuel val.endNext 0)
        = specListTraverse mem val.endAddr val.storedSize fuel val.endNext 0) ∧
    (∀ (mem : ListMem) (tn : String) (val : ListVal) (fuel : Nat) (p : ListPrinter)
        (l : List (String × Int)),
      stdListInit mem tn val fuel = some p →
      listRunAux mem val.endAddr val.storedSize fuel val.endNext 0 = some (.ok l) →
      (l.length : Int) ≠ val.storedSize →
      p.size = -1 ∧ stdListToString p = "invalid" ∧ p.hasChildren = false) := by
  constructor
  · intro mem val fuel
    exact listRunAux_eq_spec mem val.endAddr val.storedSize fuel val.endNext 0
  · intro mem tn val fuel p l hinit hrun hne
    unfold stdListInit at hinit
    rw [hrun] at hinit
    simp only [] at hinit
    have hne2 : val.storedSize ≠ (l.length : Int) := fun hh => hne hh.symm
    rw [if_pos hne2] at hinit
    have hp : p = ⟨tn, val, -1, false⟩ := (Option.some.inj hinit).symm
    subst hp
    refine ⟨rfl, ?_, rfl⟩
    unfold stdListToString
    simp

/-- Witness for C5: a one-node chain whose sentinel sits at address 0 but
whose stored size claims 5 elements; the traversal naturally terminates
after one node and the decoder invalidates itself. -/
theorem c5_list_traversal_witness :
    (Option.map (Except.map (List.map Prod.snd))
        (listRunAux memListOne 0 5 2 20 0)
      = specListTraverse memListOne 0 5 2 20 0) ∧
    ((⟨"std::list", ⟨0, 20, 5⟩, -1, false⟩ : ListPrinter).size = -1 ∧
      stdListToString ⟨"std::list", ⟨0, 20, 5⟩, -1, false⟩ = "invalid" ∧
      (⟨"std::list", ⟨0, 20, 5⟩, -1, false⟩ : ListPrinter).hasChildren = false) := by
  constructor
  · exact c5_list_traversal.1 memListOne ⟨0, 20, 5⟩ 2
  · exact c5_list_traversal.2 memListOne "std::list" ⟨0, 20, 5⟩ 2
      ⟨"std::list", ⟨0, 20, 5⟩, -1, false⟩ [(idxLabel 0, 1)] (by rfl) (by rfl) (by decide)

/-! ## C6 -/

/-- When the chain from `node` hits a null pointer at position `k`, the
hash-table cursor yields at most `k` elements from `node`. -/
theorem hashRunAux_length_le (mem : HashMem) (size : Int) :
    ∀ (k : Nat) (node count : Int) (fuel : Nat),
      hashChainPtr mem node k = some 0 →
      (hashRunAux mem size fuel node count).length ≤ k := by
  intro k
  induction k with
  | zero =>
    intro node count fuel hchain
    have hnode : node = 0 := Option.some.inj hchain
    subst hnode
    cases fuel with
    | zero => simp [hashRunAux]
    | succ fuel =>
      rw [hashRunAux]
      by_cases hstop : size ≤ count
      · rw [if_pos hstop]
        simp
      · rw [if_neg hstop, if_pos rfl]
        simp
  | succ k ih =>
    intro node count fuel hchain
    rw [hashChainPtr] at hchain
    by_cases hz : node = 0
    · rw [if_pos hz] at hchain
      cases hchain
    · rw [if_neg hz] at hchain
      cases hm : mem node with
      | none =>
        rw [hm] at hchain
        cases hchain
      | some nd =>
        rw [hm] at hchain
        cases fuel with
        | zero => simp [hashRunAux]
        | succ fuel =>
          rw [hashRunAux]
          by_cases hstop : size ≤ count
          · rw [if_pos hstop]
            simp
          · rw [if_neg hstop, if_neg hz, hm]
            simp only [List.length_cons]
            have := ih nd.next (count + 1) fuel hchain
            omega

/-- Random-access law for the hash-table cursor: the `j`-th element it
yields is the payload of the node reached by following `j` next links from
the starting pointer. -/
theorem hashRunAux_get (mem : HashMem) (size : Int) :
    ∀ (j : Nat) (node count a : Int) (nd : HashNode),
      hashChainPtr mem node j = some a → a ≠ 0 → mem a = some nd →
      count + (j : Int) < size →
      (hashRunAux mem size (size - count).toNat node count).get? j
        = some (idxLabel (count + (j : Int)), nd.value) := by
  intro j
  induction j with
  | zero =>
    intro node count a nd hchain ha hm hlt
    have hnode : node = a := Option.some.inj hchain
    subst hnode
    simp only [Nat.cast_zero, add_zero] at hlt ⊢
    rw [toNat_sub_succ hlt, hashRunAux]
    rw [if_neg (by omega : ¬ size ≤ count), if_neg ha, hm]
    rfl
  | succ j ih =>
    intro node count a nd hchain ha hm hlt
    have hcnt : count < size := by
      have : (0 : Int) ≤ (j : Int) := Int.ofNat_nonneg j
      push_cast at hlt
      omega
    rw [hashChainPtr] at hchain
    by_cases hz : node = 0
    · rw [if_pos hz] at hchain
      cases hchain
    · rw [if_neg hz] at hchain
      cases hm0 : mem node with
      | none =>
        rw [hm0] at hchain
        cases hchain
      | some nd0 =>
        rw [hm0] at hchain
        rw [toNat_sub_succ hcnt, hashRunAux]
        rw [if_neg (by omega : ¬ size ≤ count), if_neg hz, hm0]
        rw [List.get?_cons_succ]
        have := ih nd0.next (count + 1) a nd hchain ha hm
          (by push_cast at hlt; omega)
        rw [this]
        have hlbl : count + 1 + (j : Int) = count + ((j : Nat) + 1 : Int) := by
          ring
        rw [hlbl]
        norm_cast

/-- C6: the hash-table decoder traverses one chain from the stored head
pointer via next links, bounded by the stored count — element `j` is the
payload `j` links from the head — and when a null link is reached before
the traversal count equals the stored count, the decoder invalidates
itself: summary `'invalid'`, no element sequence. -/
theorem c6_hash_chain :
    (∀ (mem : HashMem) (val : HashTableVal) (j : Nat) (a : Int) (nd : HashNode),
      0 ≤ val.storedSize →
      hashChainPtr mem val.headNext j = some a → a ≠ 0 → mem a = some nd →
      (j : Int) < val.storedSize →
      (hashRun mem (hashClampedSize val.storedSize) val.headNext).get? j
        = some (idxLabel (j : Int), nd.value)) ∧
    (∀ (mem : HashMem) (tn : String) (val : HashTableVal) (k : Nat),
      0 ≤ val.storedSize →
      hashChainPtr mem val.headNext k = some 0 →
      (k : Int) < val.storedSize →
      (stdHashtableInit mem tn val).size = -1 ∧
      stdHashtableToString (stdHashtableInit mem tn val) = "invalid" ∧
      (stdHashtableInit mem tn val).hasChildren = false) := by
  constructor
  · intro mem val j a nd hs hchain ha hm hj
    have hcl : hashClampedSize val.storedSize = val.storedSize := by
      unfold hashClampedSize
      rw [if_neg (by omega)]
    have h := hashRunAux_get mem (hashClampedSize val.storedSize) j val.headNext 0 a nd
      hchain ha hm (by rw [hcl]; simpa using hj)
    unfold hashRun
    rw [show ((hashClampedSize val.storedSize) - (0 : Int)).toNat
        = (hashClampedSize val.storedSize).toNat by omega] at h
    simpa using h
  · intro mem tn val k hs hchain hk
    have hcl : hashClampedSize val.storedSize = val.storedSize := by
      unfold hashClampedSize
      rw [if_neg (by omega)]
    have hlen : ((hashRun mem (hashClampedSize val.storedSize) val.headNext).length : Int)
        ≠ hashClampedSize val.storedSize := by
      have hle := hashRunAux_length_le mem (hashClampedSize val.storedSize) k
        val.headNext 0 (hashClampedSize val.storedSize).toNat hchain
      unfold hashRun
      rw [hcl] at hle ⊢
      omega
    have hinit : stdHashtableInit mem tn val = ⟨tn, val, -1, false⟩ := by
      unfold stdHashtableInit
      rw [if_pos hlen]
    rw [hinit]
    refine ⟨rfl, ?_, rfl⟩
    unfold stdHashtableToString
    simp

/-- Memory for the C6 witness: one hash entry at address 10 whose next link
is null and whose payload is 42. -/
def memHashOne : HashMem := fun a => if a = 10 then some ⟨0, 42⟩ else none

/-- Witness for C6: with stored count 3 but a chain that nulls out after
one entry, element 0 is still the head's payload, and the decoder
invalidates. -/
theorem c6_hash_chain_witness :
    ((hashRun memHashOne (hashClampedSize 3) 10).get? 0
      = some (idxLabel ((0 : Nat) : Int), 42)) ∧
    ((stdHashtableInit memHashOne "std::unordered_set" ⟨10, 3⟩).size = -1 ∧
      stdHashtableToString (stdHashtableInit memHashOne "std::unordered_set" ⟨10, 3⟩)
        = "invalid") := by
  constructor
  · exact c6_hash_chain.1 memHashOne ⟨10, 3⟩ 0 10 ⟨0, 42⟩ (by decide) (by rfl)
      (by decide) (by rfl) (by decide)
  · have h := c6_hash_chain.2 memHashOne "std::unordered_set" ⟨10, 3⟩ 1 (by decide)
      (by rfl) (by decide)
    exact ⟨h.1, h.2.1⟩

end LibcxxPrinters
